import Mathlib

/-
Verification of the JiraD CSV-to-PlantUML converter (src/JiraD.go).

The Go program is shallowly embedded: each Go function becomes a Lean
definition of the same name, Go's `map[string]IssueInfo` becomes an
association list whose insertion order doubles as the canonical
iteration order, and the two input files become lists of lines.
-/

namespace JiraD

/-- Embeds Go `strings.Split(s, sep)` for a one-character separator:
structural recursion over the character list, accumulating the current
field in reverse. -/
def splitCharAux (sep : Char) : List Char → List Char → List String
  | [], acc => [String.mk acc.reverse]
  | c :: rest, acc =>
    if c = sep then String.mk acc.reverse :: splitCharAux sep rest []
    else splitCharAux sep rest (c :: acc)

/-- Embeds `strings.Split(line, ",")` as used for header and data rows. -/
def splitRow (line : String) : List String :=
  splitCharAux (Char.ofNat 44) line.data []

/-- Embeds Go `strings.TrimSpace`. -/
def trimString (s : String) : String :=
  String.mk (((s.data.dropWhile Char.isWhitespace).reverse.dropWhile Char.isWhitespace).reverse)

/-- Embeds Go `strings.ToUpper` (ASCII case mapping). -/
def toUpperString (s : String) : String :=
  String.mk (s.data.map Char.toUpper)

/-- Embeds `normalizeKey` from src/JiraD.go: `strings.ReplaceAll(key, "-", "")`,
i.e. removal of every hyphen. -/
def normalizeKey (key : String) : String :=
  String.mk (key.data.filter (fun c => c ≠ Char.ofNat 45))

/-- Embeds the `HeaderInfo` struct of src/JiraD.go. The three scalar
indices are Go `int`s that use -1 as the "column absent" sentinel. -/
structure HeaderInfo where
  issueKeyIdx : Int
  summaryIdx : Int
  statusIdx : Int
  blockedIdx : List Nat
  blockerIdx : List Nat
  deriving Repr, DecidableEq

/-- Embeds the `IssueInfo` struct of src/JiraD.go; the Go zero value has
empty strings and nil slices. -/
structure IssueInfo where
  issueKey : String := ""
  summary : String := ""
  status : String := ""
  blockedKeys : List String := []
  blockerKeys : List String := []
  deriving Repr, DecidableEq

/-- Embeds the `Options` struct of src/JiraD.go (the filename fields are
I/O plumbing and are replaced by explicit file contents below). The Go
`map[string]struct{}` sets become lists queried by membership. -/
structure Options where
  hideSummary : Bool
  hideOrphans : Bool
  hideKeys : List String
  showKeys : List String
  highlightKeys : List String
  highlightColor : String
  wrapWidth : Int
  deriving Repr, DecidableEq

/-- The defaults established by `loadOptions` in src/JiraD.go when no
flag is passed (`parseKeys ""` yields an empty set). -/
def defaultOptions : Options :=
  { hideSummary := false
    hideOrphans := true
    hideKeys := []
    showKeys := []
    highlightKeys := []
    highlightColor := "paleGreen"
    wrapWidth := 150 }

/-- The Go `map[string]IssueInfo`, embedded as an association list whose
order of entries is the insertion order; this order serves as the
canonical iteration order when rendering. -/
abbrev IssuesMap := List (String × IssueInfo)

/-- Embeds a Go map read `v, ok := m[k]`: the first entry with key `k`. -/
def mapGet (m : IssuesMap) (k : String) : Option IssueInfo :=
  match m with
  | [] => none
  | p :: rest => if p.1 = k then some p.2 else mapGet rest k

/-- Embeds a Go map write `m[k] = v`: replace the first entry with
key `k` in place, or append a new entry at the end. -/
def mapInsert (m : IssuesMap) (k : String) (v : IssueInfo) : IssuesMap :=
  match m with
  | [] => [(k, v)]
  | p :: rest => if p.1 = k then (k, v) :: rest else p :: mapInsert rest k v

/-- The keys of the merged map. -/
def mapKeys : IssuesMap → List String
  | [] => []
  | p :: rest => p.1 :: mapKeys rest

/-- Every identifier stored in some record's relationship lists. -/
def storedRefs : IssuesMap → List String
  | [] => []
  | p :: rest => (p.2.blockerKeys ++ p.2.blockedKeys) ++ storedRefs rest

/-- Embeds the column-scanning loop of `readHeader` in src/JiraD.go:
each recognized header name records (or for the relation columns,
appends) its index. -/
def readHeaderAux : List String → Nat → HeaderInfo → HeaderInfo
  | [], _, acc => acc
  | c :: rest, i, acc =>
    let acc1 :=
      if c = "Issue key" then { acc with issueKeyIdx := (i : Int) }
      else if c = "Summary" then { acc with summaryIdx := (i : Int) }
      else if c = "Status" then { acc with statusIdx := (i : Int) }
      else if c = "Inward issue link (Blocks)" then { acc with blockerIdx := acc.blockerIdx ++ [i] }
      else if c = "Outward issue link (Blocks)" then { acc with blockedIdx := acc.blockedIdx ++ [i] }
      else acc
    readHeaderAux rest (i + 1) acc1

/-- Embeds `readHeader` from src/JiraD.go: scan the (first) line, split
on comma, resolve columns; absence of `Issue key` is an error. -/
def readHeader (line : String) : Except String HeaderInfo :=
  let h := readHeaderAux (splitRow line) 0
    { issueKeyIdx := -1, summaryIdx := -1, statusIdx := -1, blockedIdx := [], blockerIdx := [] }
  if h.issueKeyIdx = -1 then Except.error "Issue key not found" else Except.ok h

/-- Go slice indexing `columns[idx]` for an index already checked to be
below the length (Go ints modelled as `Int`; all reachable indices are
nonnegative because `readHeader` produced them or -1, and -1 is always
guarded against). -/
def cellAt (columns : List String) (idx : Int) : String :=
  columns.getD idx.toNat ""

/-- One iteration of the loop body of `loadBlockers` in src/JiraD.go,
acting on the pair (current issue record, issues map). Mirrors the
source line for line, including the stub construction
`blocker.blockedKeys = append(blocker.blockerKeys, issue.issueKey)`. -/
def loadBlockersStep (columns : List String) (o : Options) (st : IssueInfo × IssuesMap)
    (idx : Nat) : IssueInfo × IssuesMap :=
  if idx < columns.length then
    let blockerKey := columns.getD idx ""
    if 0 < blockerKey.length then
      if blockerKey ∈ o.hideKeys then st
      else
        let issue := { st.1 with blockerKeys := st.1.blockerKeys ++ [blockerKey] }
        match mapGet st.2 blockerKey with
        | some _ => (issue, st.2)
        | none =>
          let blocker0 : IssueInfo := { issueKey := blockerKey }
          let blocker := { blocker0 with blockedKeys := blocker0.blockerKeys ++ [st.1.issueKey] }
          (issue, mapInsert st.2 blockerKey blocker)
    else st
  else st

/-- Embeds `loadBlockers` from src/JiraD.go: fold the step over the
resolved inward-relation column indices. -/
def loadBlockers (h : HeaderInfo) (columns : List String) (o : Options)
    (issue : IssueInfo) (issues : IssuesMap) : IssueInfo × IssuesMap :=
  h.blockerIdx.foldl (loadBlockersStep columns o) (issue, issues)

/-- One iteration of the loop body of `loadBlocked` in src/JiraD.go. -/
def loadBlockedStep (columns : List String) (o : Options) (st : IssueInfo × IssuesMap)
    (idx : Nat) : IssueInfo × IssuesMap :=
  if idx < columns.length then
    let blockedKey := columns.getD idx ""
    if 0 < blockedKey.length then
      if blockedKey ∈ o.hideKeys then st
      else
        let issue := { st.1 with blockedKeys := st.1.blockedKeys ++ [blockedKey] }
        match mapGet st.2 blockedKey with
        | some _ => (issue, st.2)
        | none =>
          let blocked0 : IssueInfo := { issueKey := blockedKey }
          let blocked := { blocked0 with blockerKeys := blocked0.blockerKeys ++ [st.1.issueKey] }
          (issue, mapInsert st.2 blockedKey blocked)
    else st
  else st

/-- Embeds `loadBlocked` from src/JiraD.go. -/
def loadBlocked (h : HeaderInfo) (columns : List String) (o : Options)
    (issue : IssueInfo) (issues : IssuesMap) : IssueInfo × IssuesMap :=
  h.blockedIdx.foldl (loadBlockedStep columns o) (issue, issues)

/-- The body taken by `readIssues` (src/JiraD.go) for a visible data
row with identifier `issueKey`: build the fresh record (the conditional
assignments of Go to the zero-valued summary/status fields are rendered
as conditional field values), load the relation columns, then write the
record over the map entry. -/
def rowUpdate (h : HeaderInfo) (o : Options) (issues : IssuesMap)
    (columns : List String) (issueKey : String) : IssuesMap :=
  let issue : IssueInfo :=
    { issueKey := issueKey
      summary :=
        if h.summaryIdx ≠ -1 ∧ (columns.length : Int) > h.summaryIdx then
          cellAt columns h.summaryIdx
        else ""
      status :=
        if h.statusIdx ≠ -1 ∧ (columns.length : Int) > h.statusIdx then
          cellAt columns h.statusIdx
        else ""
      blockedKeys := []
      blockerKeys := [] }
  let p1 := loadBlockers h columns o issue issues
  let p2 := loadBlocked h columns o p1.1 p1.2
  mapInsert p2.2 p2.1.issueKey p2.1

/-- One iteration of the scanner loop of `readIssues` in src/JiraD.go:
split the line, guard the identifier column against the row length,
trim the identifier, skip blank identifiers and hidden-but-not-shown
identifiers, otherwise run `rowUpdate`. -/
def processLine (h : HeaderInfo) (o : Options) (issues : IssuesMap) (line : String) : IssuesMap :=
  let columns := splitRow line
  if (columns.length : Int) > h.issueKeyIdx then
    let issueKey := trimString (cellAt columns h.issueKeyIdx)
    if 0 < issueKey.length then
      if issueKey ∈ o.showKeys ∨ issueKey ∉ o.hideKeys then
        rowUpdate h o issues columns issueKey
      else issues
    else issues
  else issues

/-- Embeds `readIssues` from src/JiraD.go: fold the per-line processing
over the data lines. -/
def readIssues (lines : List String) (h : HeaderInfo) (o : Options) (issues : IssuesMap) : IssuesMap :=
  lines.foldl (processLine h o) issues

/-- Embeds `processFile` from src/JiraD.go: resolve the header from the
first line (an empty scan yields the empty string), then read the data
rows; the only failure is header resolution. -/
def processFile (lines : List String) (o : Options) (issues : IssuesMap) : Except String IssuesMap :=
  match readHeader (lines.headD "") with
  | Except.error e => Except.error ("header failure: " ++ e)
  | Except.ok h => Except.ok (readIssues lines.tail h o issues)

/-- The fate of the optional supplemental source: not configured, the
file failed to open, or it opened with these lines. -/
inductive Source where
  | absent : Source
  | openFailed : Source
  | content : List String → Source
  deriving Repr, DecidableEq

/-- Embeds `processSupplementalFile` from src/JiraD.go: nothing to do
when no supplemental file is configured; an open failure or a header
failure is reported to the caller (which logs and continues); the
issues map is only changed on success. -/
def processSupplementalFile (supp : Source) (o : Options) (issues : IssuesMap) :
    Except String IssuesMap :=
  match supp with
  | Source.absent => Except.ok issues
  | Source.openFailed => Except.error "could not open"
  | Source.content lines =>
    match processFile lines o issues with
    | Except.error e => Except.error ("processing problem: " ++ e)
    | Except.ok m => Except.ok m

/-- The merge phase of `process` in src/JiraD.go: start from the empty
map, process the supplemental source first (continuing with the
untouched map when it fails, as the Go code logs and continues), then
process the primary source, whose failure is fatal. -/
def processIssues (supp : Source) (primary : List String) (o : Options) :
    Except String IssuesMap :=
  let issues0 : IssuesMap := []
  let issues1 :=
    match processSupplementalFile supp o issues0 with
    | Except.ok m => m
    | Except.error _ => issues0
  match processFile primary o issues1 with
  | Except.error e => Except.error ("input failure: " ++ e)
  | Except.ok m => Except.ok m

/-- Embeds `getHighlight` from src/JiraD.go. -/
def getHighlight (key : String) (o : Options) : String :=
  if key ∈ o.highlightKeys then "#" ++ o.highlightColor else ""

/-- The status fallback of `writeOutput`: "unknown" replaces an empty
status. -/
def effectiveStatus (issue : IssueInfo) : String :=
  if 0 < issue.status.length then issue.status else "unknown"

/-- The emission condition of the object section of `writeOutput`
(src/JiraD.go line 251): shown, or orphans not hidden, or the record
has at least one relationship. -/
def objectGuard (issue : IssueInfo) (o : Options) : Bool :=
  decide (issue.issueKey ∈ o.showKeys) || !o.hideOrphans ||
    decide (0 < issue.blockedKeys.length) || decide (0 < issue.blockerKeys.length)

/-- The lines one record contributes to the object section of
`writeOutput`: nothing when suppressed, otherwise the object
declaration with normalized key and optional highlight, the upper-cased
status, the optional summary, and the closing brace. -/
def objectBlock (issue : IssueInfo) (o : Options) : List String :=
  if objectGuard issue o then
    ["object " ++ normalizeKey issue.issueKey ++ " " ++ getHighlight issue.issueKey o ++ " \x7b",
     "  " ++ toUpperString (effectiveStatus issue)]
    ++ (if !o.hideSummary && decide (0 < issue.summary.length) then ["  " ++ issue.summary] else [])
    ++ ["\x7d"]
  else []

/-- The relationship lines one record contributes to `writeOutput`: one
line per entry of its blocked list, with both identifiers normalized;
there is no visibility filter in this loop. -/
def relLines (issue : IssueInfo) : List String :=
  issue.blockedKeys.map (fun b => normalizeKey issue.issueKey ++ " <|-- " ++ normalizeKey b)

/-- Embeds `writeOutput` from src/JiraD.go for a given iteration order
of the records: preamble, wrap-width line, object section, relationship
section, trailer. -/
def writeOutputLines (records : List IssueInfo) (o : Options) : List String :=
  ["@startuml", "skinparam wrapWidth " ++ toString o.wrapWidth]
  ++ (records.map (fun r => objectBlock r o)).flatten
  ++ (records.map relLines).flatten
  ++ ["@enduml"]

/-- `writeOutput` at the canonical iteration order (the association
list's insertion order). -/
def writeOutput (issues : IssuesMap) (o : Options) : List String :=
  writeOutputLines (issues.map (fun p => p.2)) o

/-- Embeds `process` from src/JiraD.go: merge, then render. The output
lines stand for the bytes written to the output file. -/
def process (supp : Source) (primary : List String) (o : Options) :
    Except String (List String) :=
  match processIssues supp primary o with
  | Except.error e => Except.error e
  | Except.ok m => Except.ok (writeOutput m o)

/-- The identifier cell of a data row, after the guards of `readIssues`:
present when the row reaches the identifier column and the trimmed cell
is non-blank. -/
def rowKeyCell (h : HeaderInfo) (line : String) : Option String :=
  let columns := splitRow line
  if (columns.length : Int) > h.issueKeyIdx then
    let issueKey := trimString (cellAt columns h.issueKeyIdx)
    if 0 < issueKey.length then some issueKey else none
  else none

/-- The identifier whose record the row writes, if the row is not
skipped: the identifier cell when it passes the show/hide visibility
test of `readIssues`. -/
def rowWritesKey (h : HeaderInfo) (o : Options) (line : String) : Option String :=
  match rowKeyCell h line with
  | some k => if k ∈ o.showKeys ∨ k ∉ o.hideKeys then some k else none
  | none => none

/-- The relation cells a row contributes for a given list of resolved
relation column indices: cells inside the row, non-blank, and not
individually hidden — exactly the guards of `loadBlockers` and
`loadBlocked`. -/
def refCells (o : Options) (columns : List String) : List Nat → List String
  | [] => []
  | idx :: rest =>
    (if idx < columns.length ∧ 0 < (columns.getD idx "").length ∧ (columns.getD idx "") ∉ o.hideKeys
     then [columns.getD idx ""] else [])
    ++ refCells o columns rest

/-- The record a visible row with identifier `issueKey` constructs,
written independently of the issues map (the map only influences stub
creation, never the row's own record). -/
def rowRecord (h : HeaderInfo) (o : Options) (columns : List String) (issueKey : String) :
    IssueInfo :=
  { issueKey := issueKey
    summary :=
      if h.summaryIdx ≠ -1 ∧ (columns.length : Int) > h.summaryIdx then
        cellAt columns h.summaryIdx
      else ""
    status :=
      if h.statusIdx ≠ -1 ∧ (columns.length : Int) > h.statusIdx then
        cellAt columns h.statusIdx
      else ""
    blockedKeys := refCells o columns h.blockedIdx
    blockerKeys := refCells o columns h.blockerIdx }

/-- The strings a row can contribute to the merged map, exactly as read
from the input: the (trimmed) identifier cell when the row is written,
and the raw relation cells. -/
def rawRowStrings (h : HeaderInfo) (o : Options) (line : String) : List String :=
  (rowWritesKey h o line).toList
  ++ refCells o (splitRow line) h.blockerIdx
  ++ refCells o (splitRow line) h.blockedIdx

/-- The key-consistency invariant of the merged map: each entry stores a
record whose `issueKey` field is the entry's key. -/
def wellKeyed (m : IssuesMap) : Prop :=
  ∀ p ∈ m, p.2.issueKey = p.1

/-! ### Association-list map lemmas -/

theorem mapGet_mapInsert_self (m : IssuesMap) (k : String) (v : IssueInfo) :
    mapGet (mapInsert m k v) k = some v := by
  induction m with
  | nil => simp [mapInsert, mapGet]
  | cons p rest ih =>
    by_cases h : p.1 = k
    · simp [mapInsert, h, mapGet]
    · simp [mapInsert, h, mapGet, ih]

theorem mapGet_mapInsert_ne (m : IssuesMap) (k x : String) (v : IssueInfo) (h : x ≠ k) :
    mapGet (mapInsert m k v) x = mapGet m x := by
  induction m with
  | nil => simp [mapInsert, mapGet, Ne.symm h]

  | cons p rest ih =>
    by_cases hp : p.1 = k
    · subst hp
      simp [mapInsert, mapGet, Ne.symm h]
    · simp only [mapInsert, if_neg hp, mapGet, ih]

theorem mapKeys_mapInsert_subset (m : IssuesMap) (k : String) (v : IssueInfo) :
    mapKeys (mapInsert m k v) ⊆ mapKeys m ++ [k] := by
  induction m with
  | nil =>
    intro a ha
    simp [mapInsert, mapKeys] at ha ⊢
    exact ha
  | cons p rest ih =>
    intro a ha
    by_cases hp : p.1 = k
    · simp [mapInsert, hp, mapKeys] at ha ⊢
      tauto
    · simp [mapInsert, hp, mapKeys] at ha ⊢
      rcases ha with rfl | ha
      · tauto
      · have hb := List.mem_append.mp (ih ha)
        simp at hb
        tauto

theorem storedRefs_mapInsert_subset (m : IssuesMap) (k : String) (v : IssueInfo) :
    storedRefs (mapInsert m k v) ⊆ storedRefs m ++ (v.blockerKeys ++ v.blockedKeys) := by
  induction m with
  | nil =>
    intro a ha
    simp [mapInsert, storedRefs] at ha ⊢
    tauto
  | cons p rest ih =>
    intro a ha
    by_cases hp : p.1 = k
    · simp [mapInsert, hp, storedRefs] at ha ⊢
      tauto
    · simp [mapInsert, hp, storedRefs] at ha ⊢
      rcases ha with ha | ha | ha
      · tauto
      · tauto
      · have hb := ih ha
        simp at hb
        tauto

theorem wellKeyed_mapInsert (m : IssuesMap) (k : String) (v : IssueInfo)
    (hm : wellKeyed m) (hv : v.issueKey = k) : wellKeyed (mapInsert m k v) := by
  induction m with
  | nil =>
    intro p hp
    simp only [mapInsert, List.mem_singleton] at hp
    subst hp
    exact hv
  | cons q rest ih =>
    by_cases hq : q.1 = k
    · intro p hp
      simp only [mapInsert, if_pos hq, List.mem_cons] at hp
      rcases hp with rfl | hp
      · exact hv
      · exact hm p (List.mem_cons_of_mem q hp)
    · intro p hp
      simp only [mapInsert, if_neg hq, List.mem_cons] at hp
      rcases hp with rfl | hp
      · exact hm p (List.mem_cons_self p rest)
      · exact ih (fun a ha => hm a (List.mem_cons_of_mem q ha)) p hp

/-! ### Characterization of the relation-loading steps -/

theorem loadBlockersStep_fst_eq (columns : List String) (o : Options)
    (st : IssueInfo × IssuesMap) (idx : Nat) :
    (loadBlockersStep columns o st idx).1 =
      { st.1 with blockerKeys := st.1.blockerKeys ++ refCells o columns [idx] } := by
  simp only [loadBlockersStep, refCells]
  generalize columns.getD idx "" = c
  by_cases h1 : idx < columns.length
  · by_cases h2 : 0 < c.length
    · by_cases h3 : c ∈ o.hideKeys
      · simp [h1, h2, h3]
      · cases hg : mapGet st.2 c <;> simp [h1, h2, h3, hg]
    · simp [h1, h2]
  · simp [h1]

theorem loadBlockersStep_snd_eq (columns : List String) (o : Options)
    (st : IssueInfo × IssuesMap) (idx : Nat) :
    (loadBlockersStep columns o st idx).2 =
      if idx < columns.length ∧ 0 < (columns.getD idx "").length ∧
          (columns.getD idx "") ∉ o.hideKeys then
        match mapGet st.2 (columns.getD idx "") with
        | some _ => st.2
        | none =>
          mapInsert st.2 (columns.getD idx "")
            { issueKey := columns.getD idx "", summary := "", status := "",
              blockedKeys := [st.1.issueKey], blockerKeys := [] }
      else st.2 := by
  simp only [loadBlockersStep]
  generalize columns.getD idx "" = c
  by_cases h1 : idx < columns.length
  · by_cases h2 : 0 < c.length
    · by_cases h3 : c ∈ o.hideKeys
      · simp [h1, h2, h3]
      · cases hg : mapGet st.2 c <;> simp [h1, h2, h3, hg]
    · simp [h1, h2]
  · simp [h1]

theorem loadBlockedStep_fst_eq (columns : List String) (o : Options)
    (st : IssueInfo × IssuesMap) (idx : Nat) :
    (loadBlockedStep columns o st idx).1 =
      { st.1 with blockedKeys := st.1.blockedKeys ++ refCells o columns [idx] } := by
  simp only [loadBlockedStep, refCells]
  generalize columns.getD idx "" = c
  by_cases h1 : idx < columns.length
  · by_cases h2 : 0 < c.length
    · by_cases h3 : c ∈ o.hideKeys
      · simp [h1, h2, h3]
      · cases hg : mapGet st.2 c <;> simp [h1, h2, h3, hg]
    · simp [h1, h2]
  · simp [h1]

theorem loadBlockedStep_snd_eq (columns : List String) (o : Options)
    (st : IssueInfo × IssuesMap) (idx : Nat) :
    (loadBlockedStep columns o st idx).2 =
      if idx < columns.length ∧ 0 < (columns.getD idx "").length ∧
          (columns.getD idx "") ∉ o.hideKeys then
        match mapGet st.2 (columns.getD idx "") with
        | some _ => st.2
        | none =>
          mapInsert st.2 (columns.getD idx "")
            { issueKey := columns.getD idx "", summary := "", status := "",
              blockedKeys := [], blockerKeys := [st.1.issueKey] }
      else st.2 := by
  simp only [loadBlockedStep]
  generalize columns.getD idx "" = c
  by_cases h1 : idx < columns.length
  · by_cases h2 : 0 < c.length
    · by_cases h3 : c ∈ o.hideKeys
      · simp [h1, h2, h3]
      · cases hg : mapGet st.2 c <;> simp [h1, h2, h3, hg]
    · simp [h1, h2]
  · simp [h1]

/-! ### Generic fold lemmas for the two relation-loading loops

Both `loadBlockers` and `loadBlocked` fold a step whose effect on the
issues map is captured by `loadBlockersStep_snd_eq` and
`loadBlockedStep_snd_eq`; the lemmas below are proved once over such an
abstract step (`hsnd`), with the stub record left abstract. -/

def stepSndShape (columns : List String) (o : Options) (stub : String → String → IssueInfo)
    (step : IssueInfo × IssuesMap → Nat → IssueInfo × IssuesMap) : Prop :=
  ∀ st idx, (step st idx).2 =
    if idx < columns.length ∧ 0 < (columns.getD idx "").length ∧
        (columns.getD idx "") ∉ o.hideKeys then
      match mapGet st.2 (columns.getD idx "") with
      | some _ => st.2
      | none => mapInsert st.2 (columns.getD idx "") (stub (columns.getD idx "") st.1.issueKey)
    else st.2

theorem relFold_preserve (columns : List String) (o : Options)
    (stub : String → String → IssueInfo)
    (step : IssueInfo × IssuesMap → Nat → IssueInfo × IssuesMap)
    (hsnd : stepSndShape columns o stub step) (idxs : List Nat) :
    ∀ (issue : IssueInfo) (m : IssuesMap) (x : String) (r : IssueInfo),
      mapGet m x = some r →
      mapGet ((idxs.foldl step (issue, m)).2) x = some r := by
  simp only [stepSndShape] at hsnd
  induction idxs with
  | nil => intro _ _ _ _ hx; exact hx
  | cons idx rest ih =>
    intro issue m x r hx
    rw [List.foldl_cons]
    apply ih
    simp only [hsnd]
    split_ifs with hc
    · cases hg : mapGet m (columns.getD idx "") with
      | some w => simp only [hg]; exact hx
      | none =>
        have hne : x ≠ columns.getD idx "" := by
          intro he
          rw [he, hg] at hx
          exact Option.noConfusion hx
        simp only [hg]
        rw [mapGet_mapInsert_ne _ _ _ _ hne]
        exact hx
    · exact hx

theorem relFold_none (columns : List String) (o : Options)
    (stub : String → String → IssueInfo)
    (step : IssueInfo × IssuesMap → Nat → IssueInfo × IssuesMap)
    (hsnd : stepSndShape columns o stub step) (idxs : List Nat) :
    ∀ (issue : IssueInfo) (m : IssuesMap) (x : String),
      mapGet m x = none → x ∉ refCells o columns idxs →
      mapGet ((idxs.foldl step (issue, m)).2) x = none := by
  simp only [stepSndShape] at hsnd
  induction idxs with
  | nil => intro _ _ _ hx _; exact hx
  | cons idx rest ih =>
    intro issue m x hx hmem
    rw [List.foldl_cons]
    have hA : x ∉ (if idx < columns.length ∧ 0 < (columns.getD idx "").length ∧
        (columns.getD idx "") ∉ o.hideKeys then [columns.getD idx ""] else []) :=
      fun h => hmem (by simp only [refCells]; exact List.mem_append.mpr (Or.inl h))
    have hB : x ∉ refCells o columns rest :=
      fun h => hmem (by simp only [refCells]; exact List.mem_append.mpr (Or.inr h))
    apply ih
    · simp only [hsnd]
      split_ifs with hc
      · cases hg : mapGet m (columns.getD idx "") with
        | some w => simp only [hg]; exact hx
        | none =>
          have hne : x ≠ columns.getD idx "" := by
            intro he
            apply hA
            rw [if_pos hc]
            simp [he]
          simp only [hg]
          rw [mapGet_mapInsert_ne _ _ _ _ hne]
          exact hx
      · exact hx
    · exact hB

theorem relFold_stub (columns : List String) (o : Options)
    (stub : String → String → IssueInfo)
    (step : IssueInfo × IssuesMap → Nat → IssueInfo × IssuesMap)
    (hsnd : stepSndShape columns o stub step)
    (hkey : ∀ st idx, (step st idx).1.issueKey = st.1.issueKey) (idxs : List Nat) :
    ∀ (issue : IssueInfo) (m : IssuesMap) (x : String),
      mapGet m x = none → x ∈ refCells o columns idxs →
      mapGet ((idxs.foldl step (issue, m)).2) x = some (stub x issue.issueKey) := by
  simp only [stepSndShape] at hsnd
  induction idxs with
  | nil => intro _ _ _ _ hmem; simp [refCells] at hmem
  | cons idx rest ih =>
    intro issue m x hx hmem
    rw [List.foldl_cons]
    by_cases hc : idx < columns.length ∧ 0 < (columns.getD idx "").length ∧
        (columns.getD idx "") ∉ o.hideKeys
    · by_cases hxc : x = columns.getD idx ""
      · have hsnd2 : (step (issue, m) idx).2 = mapInsert m x (stub x issue.issueKey) := by
          rw [hsnd, if_pos hc, ← hxc]
          simp only [hx]
        exact relFold_preserve columns o stub step hsnd rest _ _ _ _
          (by rw [hsnd2]; exact mapGet_mapInsert_self _ _ _)
      · have hnew : mapGet ((step (issue, m) idx).2) x = none := by
          simp only [hsnd]
          rw [if_pos hc]
          cases hg : mapGet m (columns.getD idx "") with
          | some w => simp only [hg]; exact hx
          | none =>
            simp only [hg]
            rw [mapGet_mapInsert_ne _ _ _ _ hxc]
            exact hx
        have hmem2 : x ∈ refCells o columns rest := by
          simp only [refCells] at hmem
          rcases List.mem_append.mp hmem with h | h
          · rw [if_pos hc] at h
            exact absurd (List.mem_singleton.mp h) hxc
          · exact h
        have hres := ih (step (issue, m) idx).1 (step (issue, m) idx).2 x hnew hmem2
        rw [hkey] at hres
        exact hres
    · have hsnd2 : (step (issue, m) idx).2 = m := by
        rw [hsnd, if_neg hc]
      have hmem2 : x ∈ refCells o columns rest := by
        simp only [refCells] at hmem
        rcases List.mem_append.mp hmem with h | h
        · rw [if_neg hc] at h
          cases h
        · exact h
      have hres := ih (step (issue, m) idx).1 (step (issue, m) idx).2 x
        (by rw [hsnd2]; exact hx) hmem2
      rw [hkey] at hres
      exact hres

theorem relFold_keys (columns : List String) (o : Options)
    (stub : String → String → IssueInfo)
    (step : IssueInfo × IssuesMap → Nat → IssueInfo × IssuesMap)
    (hsnd : stepSndShape columns o stub step) (idxs : List Nat) :
    ∀ (issue : IssueInfo) (m : IssuesMap) (a : String),
      a ∈ mapKeys ((idxs.foldl step (issue, m)).2) →
      a ∈ mapKeys m ∨ a ∈ refCells o columns idxs := by
  simp only [stepSndShape] at hsnd
  induction idxs with
  | nil => intro _ _ _ ha; exact Or.inl ha
  | cons idx rest ih =>
    intro issue m a ha
    rw [List.foldl_cons] at ha
    rcases ih _ _ _ ha with h | h
    · revert h
      simp only [hsnd]
      split_ifs with hc
      · cases hg : mapGet m (columns.getD idx "") with
        | some w => simp only [hg]; exact fun h => Or.inl h
        | none =>
          simp only [hg]
          intro h
          rcases List.mem_append.mp (mapKeys_mapInsert_subset _ _ _ h) with h2 | h2
          · exact Or.inl h2
          · right
            simp only [refCells]
            apply List.mem_append.mpr
            left
            rw [if_pos hc]
            simpa using h2
      · exact fun h => Or.inl h
    · right
      simp only [refCells]
      exact List.mem_append.mpr (Or.inr h)

theorem relFold_refs (columns : List String) (o : Options)
    (stub : String → String → IssueInfo)
    (step : IssueInfo × IssuesMap → Nat → IssueInfo × IssuesMap)
    (hsnd : stepSndShape columns o stub step)
    (hkey : ∀ st idx, (step st idx).1.issueKey = st.1.issueKey)
    (hstub : ∀ c k, (stub c k).blockerKeys ++ (stub c k).blockedKeys = [k]) (idxs : List Nat) :
    ∀ (issue : IssueInfo) (m : IssuesMap) (a : String),
      a ∈ storedRefs ((idxs.foldl step (issue, m)).2) →
      a ∈ storedRefs m ∨ a = issue.issueKey := by
  simp only [stepSndShape] at hsnd
  induction idxs with
  | nil => intro _ _ _ ha; exact Or.inl ha
  | cons idx rest ih =>
    intro issue m a ha
    rw [List.foldl_cons] at ha
    rcases ih _ _ _ ha with h | h
    · revert h
      simp only [hsnd]
      split_ifs with hc
      · cases hg : mapGet m (columns.getD idx "") with
        | some w => simp only [hg]; exact fun h => Or.inl h
        | none =>
          simp only [hg]
          intro h
          rcases List.mem_append.mp (storedRefs_mapInsert_subset _ _ _ h) with h2 | h2
          · exact Or.inl h2
          · right
            rw [hstub] at h2
            simpa using h2
      · exact fun h => Or.inl h
    · right
      rw [hkey] at h
      exact h

theorem relFold_wellKeyed (columns : List String) (o : Options)
    (stub : String → String → IssueInfo)
    (step : IssueInfo × IssuesMap → Nat → IssueInfo × IssuesMap)
    (hsnd : stepSndShape columns o stub step)
    (hstubkey : ∀ c k, (stub c k).issueKey = c) (idxs : List Nat) :
    ∀ (issue : IssueInfo) (m : IssuesMap),
      wellKeyed m → wellKeyed ((idxs.foldl step (issue, m)).2) := by
  simp only [stepSndShape] at hsnd
  induction idxs with
  | nil => intro _ _ hm; exact hm
  | cons idx rest ih =>
    intro issue m hm
    rw [List.foldl_cons]
    apply ih
    simp only [hsnd]
    split_ifs with hc
    · cases hg : mapGet m (columns.getD idx "") with
      | some w => simp only [hg]; exact hm
      | none => simp only [hg]; exact wellKeyed_mapInsert _ _ _ hm (hstubkey _ _)
    · exact hm

/-! ### Instantiation for the two concrete steps -/

/-- The stub record `loadBlockers` creates for a referenced blocker. -/
def blockerStub (c k : String) : IssueInfo :=
  { issueKey := c, summary := "", status := "", blockedKeys := [k], blockerKeys := [] }

/-- The stub record `loadBlocked` creates for a referenced blocked issue. -/
def blockedStub (c k : String) : IssueInfo :=
  { issueKey := c, summary := "", status := "", blockedKeys := [], blockerKeys := [k] }

theorem loadBlockersStep_shape (columns : List String) (o : Options) :
    stepSndShape columns o blockerStub (loadBlockersStep columns o) :=
  fun st idx => loadBlockersStep_snd_eq columns o st idx

theorem loadBlockedStep_shape (columns : List String) (o : Options) :
    stepSndShape columns o blockedStub (loadBlockedStep columns o) :=
  fun st idx => loadBlockedStep_snd_eq columns o st idx

theorem loadBlockersStep_key (columns : List String) (o : Options)
    (st : IssueInfo × IssuesMap) (idx : Nat) :
    (loadBlockersStep columns o st idx).1.issueKey = st.1.issueKey := by
  rw [loadBlockersStep_fst_eq]

theorem loadBlockedStep_key (columns : List String) (o : Options)
    (st : IssueInfo × IssuesMap) (idx : Nat) :
    (loadBlockedStep columns o st idx).1.issueKey = st.1.issueKey := by
  rw [loadBlockedStep_fst_eq]

theorem loadBlockersStep_fold_fst (columns : List String) (o : Options) (idxs : List Nat) :
    ∀ (issue : IssueInfo) (m : IssuesMap),
      (idxs.foldl (loadBlockersStep columns o) (issue, m)).1 =
        { issue with blockerKeys := issue.blockerKeys ++ refCells o columns idxs } := by
  induction idxs with
  | nil => intro issue m; simp [refCells]
  | cons idx rest ih =>
    intro issue m
    rw [List.foldl_cons]
    rw [show loadBlockersStep columns o (issue, m) idx =
      ((loadBlockersStep columns o (issue, m) idx).1,
       (loadBlockersStep columns o (issue, m) idx).2) from rfl]
    rw [ih, loadBlockersStep_fst_eq]
    simp [refCells, List.append_assoc]

theorem loadBlockedStep_fold_fst (columns : List String) (o : Options) (idxs : List Nat) :
    ∀ (issue : IssueInfo) (m : IssuesMap),
      (idxs.foldl (loadBlockedStep columns o) (issue, m)).1 =
        { issue with blockedKeys := issue.blockedKeys ++ refCells o columns idxs } := by
  induction idxs with
  | nil => intro issue m; simp [refCells]
  | cons idx rest ih =>
    intro issue m
    rw [List.foldl_cons]
    rw [show loadBlockedStep columns o (issue, m) idx =
      ((loadBlockedStep columns o (issue, m) idx).1,
       (loadBlockedStep columns o (issue, m) idx).2) from rfl]
    rw [ih, loadBlockedStep_fst_eq]
    simp [refCells, List.append_assoc]

/-! ### Per-row lemmas -/

theorem rowUpdate_get_self (h : HeaderInfo) (o : Options) (m : IssuesMap)
    (columns : List String) (k : String) :
    mapGet (rowUpdate h o m columns k) k = some (rowRecord h o columns k) := by
  simp only [rowUpdate, loadBlockers, loadBlocked]
  rw [loadBlockedStep_fold_fst, loadBlockersStep_fold_fst]
  simp only [rowRecord]
  rw [mapGet_mapInsert_self]
  rfl

theorem rowUpdate_preserve (h : HeaderInfo) (o : Options) (m : IssuesMap)
    (columns : List String) (k x : String) (r : IssueInfo)
    (hx : mapGet m x = some r) (hkx : k ≠ x) :
    mapGet (rowUpdate h o m columns k) x = some r := by
  simp only [rowUpdate, loadBlockers, loadBlocked]
  rw [loadBlockedStep_fold_fst, loadBlockersStep_fold_fst]
  rw [mapGet_mapInsert_ne]
  · exact relFold_preserve columns o blockedStub _ (loadBlockedStep_shape columns o)
      h.blockedIdx _ _ _ _
      (relFold_preserve columns o blockerStub _ (loadBlockersStep_shape columns o)
        h.blockerIdx _ _ _ _ hx)
  · exact Ne.symm hkx

theorem rowUpdate_stub_blocker (h : HeaderInfo) (o : Options) (m : IssuesMap)
    (columns : List String) (k x : String)
    (hx : mapGet m x = none) (hkx : k ≠ x)
    (hmem : x ∈ refCells o columns h.blockerIdx) :
    mapGet (rowUpdate h o m columns k) x = some (blockerStub x k) := by
  simp only [rowUpdate, loadBlockers, loadBlocked]
  rw [loadBlockedStep_fold_fst, loadBlockersStep_fold_fst]
  rw [mapGet_mapInsert_ne]
  · exact relFold_preserve columns o blockedStub _ (loadBlockedStep_shape columns o)
      h.blockedIdx _ _ _ _
      (relFold_stub columns o blockerStub _ (loadBlockersStep_shape columns o)
        (loadBlockersStep_key columns o) h.blockerIdx _ _ _ hx hmem)
  · exact Ne.symm hkx

theorem rowUpdate_stub_blocked (h : HeaderInfo) (o : Options) (m : IssuesMap)
    (columns : List String) (k x : String)
    (hx : mapGet m x = none) (hkx : k ≠ x)
    (hnotb : x ∉ refCells o columns h.blockerIdx)
    (hmem : x ∈ refCells o columns h.blockedIdx) :
    mapGet (rowUpdate h o m columns k) x = some (blockedStub x k) := by
  simp only [rowUpdate, loadBlockers, loadBlocked]
  rw [loadBlockedStep_fold_fst, loadBlockersStep_fold_fst]
  rw [mapGet_mapInsert_ne]
  · exact relFold_stub columns o blockedStub _ (loadBlockedStep_shape columns o)
      (loadBlockedStep_key columns o) h.blockedIdx _ _ _
      (relFold_none columns o blockerStub _ (loadBlockersStep_shape columns o)
        h.blockerIdx _ _ _ hx hnotb) hmem
  · exact Ne.symm hkx

theorem rowUpdate_keys (h : HeaderInfo) (o : Options) (m : IssuesMap)
    (columns : List String) (k a : String)
    (ha : a ∈ mapKeys (rowUpdate h o m columns k)) :
    a ∈ mapKeys m ∨ a = k ∨ a ∈ refCells o columns h.blockerIdx ∨
      a ∈ refCells o columns h.blockedIdx := by
  simp only [rowUpdate, loadBlockers, loadBlocked] at ha
  rw [loadBlockedStep_fold_fst, loadBlockersStep_fold_fst] at ha
  rcases List.mem_append.mp (mapKeys_mapInsert_subset _ _ _ ha) with h1 | h1
  · rcases relFold_keys columns o blockedStub _ (loadBlockedStep_shape columns o)
        h.blockedIdx _ _ _ h1 with h2 | h2
    · rcases relFold_keys columns o blockerStub _ (loadBlockersStep_shape columns o)
          h.blockerIdx _ _ _ h2 with h3 | h3
      · exact Or.inl h3
      · exact Or.inr (Or.inr (Or.inl h3))
    · exact Or.inr (Or.inr (Or.inr h2))
  · right
    left
    simpa using h1

theorem rowUpdate_refs (h : HeaderInfo) (o : Options) (m : IssuesMap)
    (columns : List String) (k a : String)
    (ha : a ∈ storedRefs (rowUpdate h o m columns k)) :
    a ∈ storedRefs m ∨ a = k ∨ a ∈ refCells o columns h.blockerIdx ∨
      a ∈ refCells o columns h.blockedIdx := by
  simp only [rowUpdate, loadBlockers, loadBlocked] at ha
  rw [loadBlockedStep_fold_fst, loadBlockersStep_fold_fst] at ha
  rcases List.mem_append.mp (storedRefs_mapInsert_subset _ _ _ ha) with h1 | h1
  · rcases relFold_refs columns o blockedStub _ (loadBlockedStep_shape columns o)
        (loadBlockedStep_key columns o) (fun c k2 => rfl) h.blockedIdx _ _ _ h1 with h2 | h2
    · rcases relFold_refs columns o blockerStub _ (loadBlockersStep_shape columns o)
          (loadBlockersStep_key columns o) (fun c k2 => rfl) h.blockerIdx _ _ _ h2 with h3 | h3
      · exact Or.inl h3
      · exact Or.inr (Or.inl h3)
    · exact Or.inr (Or.inl h2)
  · rcases List.mem_append.mp h1 with h2 | h2
    · exact Or.inr (Or.inr (Or.inl (by simpa using h2)))
    · exact Or.inr (Or.inr (Or.inr (by simpa using h2)))

theorem rowUpdate_wellKeyed (h : HeaderInfo) (o : Options) (m : IssuesMap)
    (columns : List String) (k : String) (hm : wellKeyed m) :
    wellKeyed (rowUpdate h o m columns k) := by
  simp only [rowUpdate, loadBlockers, loadBlocked]
  apply wellKeyed_mapInsert
  · apply relFold_wellKeyed columns o blockedStub _ (loadBlockedStep_shape columns o)
      (fun c k2 => rfl) h.blockedIdx
    apply relFold_wellKeyed columns o blockerStub _ (loadBlockersStep_shape columns o)
      (fun c k2 => rfl) h.blockerIdx
    exact hm
  · rfl

/-! ### Per-line lemmas -/

theorem processLine_eq (h : HeaderInfo) (o : Options) (m : IssuesMap) (line : String) :
    processLine h o m line =
      match rowWritesKey h o line with
      | some k => rowUpdate h o m (splitRow line) k
      | none => m := by
  simp only [processLine, rowWritesKey, rowKeyCell]
  by_cases h1 : ((splitRow line).length : Int) > h.issueKeyIdx
  · by_cases h2 : 0 < (trimString (cellAt (splitRow line) h.issueKeyIdx)).length
    · by_cases h3 : trimString (cellAt (splitRow line) h.issueKeyIdx) ∈ o.showKeys ∨
          trimString (cellAt (splitRow line) h.issueKeyIdx) ∉ o.hideKeys
      · simp [h1, h2, h3]
      · simp [h1, h2, h3]
    · simp [h1, h2]
  · simp [h1]

theorem processLine_writes (h : HeaderInfo) (o : Options) (m : IssuesMap) (line : String)
    (k : String) (hw : rowWritesKey h o line = some k) :
    mapGet (processLine h o m line) k = some (rowRecord h o (splitRow line) k) := by
  rw [processLine_eq, hw]
  exact rowUpdate_get_self h o m (splitRow line) k

theorem processLine_preserve (h : HeaderInfo) (o : Options) (m : IssuesMap) (line : String)
    (x : String) (r : IssueInfo) (hx : mapGet m x = some r)
    (hw : rowWritesKey h o line ≠ some x) :
    mapGet (processLine h o m line) x = some r := by
  rw [processLine_eq]
  cases hk : rowWritesKey h o line with
  | none => exact hx
  | some k =>
    have hkx : k ≠ x := fun he => hw (by rw [hk, he])
    exact rowUpdate_preserve h o m (splitRow line) k x r hx hkx

theorem processLine_keys (h : HeaderInfo) (o : Options) (m : IssuesMap) (line : String)
    (a : String) (ha : a ∈ mapKeys (processLine h o m line)) :
    a ∈ mapKeys m ∨ a ∈ rawRowStrings h o line := by
  rw [processLine_eq] at ha
  cases hk : rowWritesKey h o line with
  | none => rw [hk] at ha; exact Or.inl ha
  | some k =>
    rw [hk] at ha
    rcases rowUpdate_keys h o m (splitRow line) k a ha with h1 | h1 | h1 | h1
    · exact Or.inl h1
    · right
      simp [rawRowStrings, hk, h1]
    · right
      simp [rawRowStrings, hk, h1]
    · right
      simp [rawRowStrings, hk, h1]

theorem processLine_refs (h : HeaderInfo) (o : Options) (m : IssuesMap) (line : String)
    (a : String) (ha : a ∈ storedRefs (processLine h o m line)) :
    a ∈ storedRefs m ∨ a ∈ rawRowStrings h o line := by
  rw [processLine_eq] at ha
  cases hk : rowWritesKey h o line with
  | none => rw [hk] at ha; exact Or.inl ha
  | some k =>
    rw [hk] at ha
    rcases rowUpdate_refs h o m (splitRow line) k a ha with h1 | h1 | h1 | h1
    · exact Or.inl h1
    · right
      simp [rawRowStrings, hk, h1]
    · right
      simp [rawRowStrings, hk, h1]
    · right
      simp [rawRowStrings, hk, h1]

theorem processLine_wellKeyed (h : HeaderInfo) (o : Options) (m : IssuesMap) (line : String)
    (hm : wellKeyed m) : wellKeyed (processLine h o m line) := by
  rw [processLine_eq]
  cases rowWritesKey h o line with
  | none => exact hm
  | some k => exact rowUpdate_wellKeyed h o m (splitRow line) k hm

theorem processLine_stub_blocker (h : HeaderInfo) (o : Options) (m : IssuesMap)
    (line : String) (k x : String)
    (hx : mapGet m x = none) (hw : rowWritesKey h o line = some k) (hkx : k ≠ x)
    (hmem : x ∈ refCells o (splitRow line) h.blockerIdx) :
    mapGet (processLine h o m line) x = some (blockerStub x k) := by
  rw [processLine_eq, hw]
  exact rowUpdate_stub_blocker h o m (splitRow line) k x hx hkx hmem

theorem processLine_stub_blocked (h : HeaderInfo) (o : Options) (m : IssuesMap)
    (line : String) (k x : String)
    (hx : mapGet m x = none) (hw : rowWritesKey h o line = some k) (hkx : k ≠ x)
    (hnotb : x ∉ refCells o (splitRow line) h.blockerIdx)
    (hmem : x ∈ refCells o (splitRow line) h.blockedIdx) :
    mapGet (processLine h o m line) x = some (blockedStub x k) := by
  rw [processLine_eq, hw]
  exact rowUpdate_stub_blocked h o m (splitRow line) k x hx hkx hnotb hmem

/-! ### Whole-file lemmas for `readIssues` -/

theorem readIssues_preserve (h : HeaderInfo) (o : Options) (lines : List String) :
    ∀ (m : IssuesMap) (x : String) (r : IssueInfo),
      mapGet m x = some r → (∀ l ∈ lines, rowWritesKey h o l ≠ some x) →
      mapGet (readIssues lines h o m) x = some r := by
  induction lines with
  | nil => intro m x r hx _; exact hx
  | cons ln rest ih =>
    intro m x r hx hall
    simp only [readIssues, List.foldl_cons]
    exact ih _ _ _
      (processLine_preserve h o m ln x r hx (hall ln (List.mem_cons_self ln rest)))
      (fun l hl => hall l (List.mem_cons_of_mem ln hl))

theorem readIssues_last_write (h : HeaderInfo) (o : Options)
    (pre : List String) (ln : String) (post : List String) (m : IssuesMap) (k : String)
    (hw : rowWritesKey h o ln = some k)
    (hpost : ∀ l ∈ post, rowWritesKey h o l ≠ some k) :
    mapGet (readIssues (pre ++ ln :: post) h o m) k
      = some (rowRecord h o (splitRow ln) k) := by
  have hsplit : readIssues (pre ++ ln :: post) h o m
      = readIssues post h o (processLine h o (readIssues pre h o m) ln) := by
    simp [readIssues, List.foldl_append]
  rw [hsplit]
  exact readIssues_preserve h o post _ _ _ (processLine_writes h o _ ln k hw) hpost

theorem readIssues_keys (h : HeaderInfo) (o : Options) (lines : List String) :
    ∀ (m : IssuesMap) (a : String),
      a ∈ mapKeys (readIssues lines h o m) →
      a ∈ mapKeys m ∨ a ∈ (lines.map (rawRowStrings h o)).flatten := by
  induction lines with
  | nil => intro m a ha; exact Or.inl ha
  | cons ln rest ih =>
    intro m a ha
    simp only [readIssues, List.foldl_cons] at ha
    rcases ih _ _ ha with h1 | h1
    · rcases processLine_keys h o m ln a h1 with h2 | h2
      · exact Or.inl h2
      · right
        simp only [List.map_cons, List.flatten_cons]
        exact List.mem_append.mpr (Or.inl h2)
    · right
      simp only [List.map_cons, List.flatten_cons]
      exact List.mem_append.mpr (Or.inr h1)

theorem readIssues_refs (h : HeaderInfo) (o : Options) (lines : List String) :
    ∀ (m : IssuesMap) (a : String),
      a ∈ storedRefs (readIssues lines h o m) →
      a ∈ storedRefs m ∨ a ∈ (lines.map (rawRowStrings h o)).flatten := by
  induction lines with
  | nil => intro m a ha; exact Or.inl ha
  | cons ln rest ih =>
    intro m a ha
    simp only [readIssues, List.foldl_cons] at ha
    rcases ih _ _ ha with h1 | h1
    · rcases processLine_refs h o m ln a h1 with h2 | h2
      · exact Or.inl h2
      · right
        simp only [List.map_cons, List.flatten_cons]
        exact List.mem_append.mpr (Or.inl h2)
    · right
      simp only [List.map_cons, List.flatten_cons]
      exact List.mem_append.mpr (Or.inr h1)

theorem readIssues_wellKeyed (h : HeaderInfo) (o : Options) (lines : List String) :
    ∀ (m : IssuesMap), wellKeyed m → wellKeyed (readIssues lines h o m) := by
  induction lines with
  | nil => intro m hm; exact hm
  | cons ln rest ih =>
    intro m hm
    simp only [readIssues, List.foldl_cons]
    exact ih _ (processLine_wellKeyed h o m ln hm)

/-! ### Header-resolution lemmas -/

theorem readHeaderAux_issueKeyIdx (cols : List String) :
    ∀ (i : Nat) (acc : HeaderInfo),
      (readHeaderAux cols i acc).issueKeyIdx = -1 ↔
        (acc.issueKeyIdx = -1 ∧ "Issue key" ∉ cols) := by
  induction cols with
  | nil => intro i acc; simp [readHeaderAux]
  | cons c rest ih =>
    intro i acc
    simp only [readHeaderAux]
    by_cases hc : c = "Issue key"
    · subst hc
      rw [if_pos rfl, ih]
      have hne : ¬((i : Int) = -1) := by omega
      simp [hne]
    · rw [if_neg hc]
      have hpres : (if c = "Summary" then { acc with summaryIdx := (i : Int) }
          else if c = "Status" then { acc with statusIdx := (i : Int) }
          else if c = "Inward issue link (Blocks)" then
            { acc with blockerIdx := acc.blockerIdx ++ [i] }
          else if c = "Outward issue link (Blocks)" then
            { acc with blockedIdx := acc.blockedIdx ++ [i] }
          else acc).issueKeyIdx = acc.issueKeyIdx := by
        split_ifs <;> rfl
      rw [ih, hpres]
      simp [Ne.symm hc]

theorem readHeader_ok_iff (line : String) :
    (readHeader line).toOption.isSome ↔ "Issue key" ∈ splitRow line := by
  by_cases hik : (readHeaderAux (splitRow line) 0
      { issueKeyIdx := -1, summaryIdx := -1, statusIdx := -1,
        blockedIdx := [], blockerIdx := [] }).issueKeyIdx = -1
  · simp only [readHeader, if_pos hik]
    have hnot := (readHeaderAux_issueKeyIdx (splitRow line) 0 _).mp hik
    simp [Except.toOption, hnot.2]
  · simp only [readHeader, if_neg hik]
    have hmem : "Issue key" ∈ splitRow line := by
      by_contra hcon
      exact hik ((readHeaderAux_issueKeyIdx (splitRow line) 0 _).mpr ⟨rfl, hcon⟩)
    simp [Except.toOption, hmem]

theorem processFile_wellKeyed (lines : List String) (o : Options) (m m2 : IssuesMap)
    (hm : wellKeyed m) (h2 : processFile lines o m = Except.ok m2) : wellKeyed m2 := by
  unfold processFile at h2
  cases hr : readHeader (lines.headD "") with
  | error e => rw [hr] at h2; exact absurd h2 (by simp)
  | ok hh =>
    rw [hr] at h2
    injection h2 with h3
    rw [← h3]
    exact readIssues_wellKeyed hh o lines.tail m hm

theorem processSupplementalFile_wellKeyed (supp : Source) (o : Options) (m m2 : IssuesMap)
    (hm : wellKeyed m) (h2 : processSupplementalFile supp o m = Except.ok m2) :
    wellKeyed m2 := by
  cases supp with
  | absent =>
    simp only [processSupplementalFile] at h2
    injection h2 with h3
    rw [← h3]
    exact hm
  | openFailed => exact absurd h2 (by simp [processSupplementalFile])
  | content lines =>
    simp only [processSupplementalFile] at h2
    cases hf : processFile lines o m with
    | error e => rw [hf] at h2; exact absurd h2 (by simp)
    | ok mm =>
      rw [hf] at h2
      injection h2 with h3
      rw [← h3]
      exact processFile_wellKeyed lines o m mm hm hf

/-- Claim C10: every operation that inserts or overwrites an entry of
the merged map (a row record in `readIssues`, a blocker stub, a blocked
stub) keeps the invariant that each stored record's `issueKey` equals
its map key; hence any successfully merged map is well-keyed. -/
theorem mergedMap_wellKeyed (supp : Source) (primary : List String) (o : Options)
    (m : IssuesMap) (hm : processIssues supp primary o = Except.ok m) : wellKeyed m := by
  simp only [processIssues] at hm
  cases hs : processSupplementalFile supp o [] with
  | ok m1 =>
    rw [hs] at hm
    cases hf : processFile primary o m1 with
    | error e => rw [hf] at hm; exact absurd hm (by simp)
    | ok m2 =>
      rw [hf] at hm
      simp only [] at hm
      injection hm with h3
      rw [← h3]
      exact processFile_wellKeyed primary o m1 m2
        (processSupplementalFile_wellKeyed supp o [] m1 (fun p hp => by cases hp) hs) hf
  | error e1 =>
    rw [hs] at hm
    cases hf : processFile primary o [] with
    | error e => rw [hf] at hm; exact absurd hm (by simp)
    | ok m2 =>
      rw [hf] at hm
      simp only [] at hm
      injection hm with h3
      rw [← h3]
      exact processFile_wellKeyed primary o [] m2 (fun p hp => by cases hp) hf

/-- Claim C10 witness at a concrete two-row input. -/
theorem mergedMap_wellKeyed_witness :
    wellKeyed [("X", { issueKey := "X", blockerKeys := ["A"] }),
      ("A", { issueKey := "A", blockedKeys := ["X"] })] :=
  mergedMap_wellKeyed Source.absent
    ["Issue key,Outward issue link (Blocks)", "A,X"] defaultOptions _ (by rfl)

/-- Claim C5: a failure opening or parsing the optional supplemental
source is non-fatal (the run proceeds exactly as with no supplemental
source); the merge-and-render step succeeds exactly when the primary
header contains `Issue key` (output-write failures are I/O effects
outside this pure model); and the supplemental source is merged before
the primary one. -/
theorem supplemental_failure_nonfatal (o : Options) :
    (∀ (supp : Source) (primary : List String) (e : String),
       processSupplementalFile supp o [] = Except.error e →
       process supp primary o = process Source.absent primary o)
    ∧ (∀ (supp : Source) (primary : List String),
       (process supp primary o).toOption.isSome ↔ "Issue key" ∈ splitRow (primary.headD ""))
    ∧ (∀ (sh : String) (srows : List String) (ph : String) (prows : List String)
        (hS hP : HeaderInfo),
       readHeader sh = Except.ok hS → readHeader ph = Except.ok hP →
       processIssues (Source.content (sh :: srows)) (ph :: prows) o
         = Except.ok (readIssues prows hP o (readIssues srows hS o []))) := by
  refine ⟨?_, ?_, ?_⟩
  · intro supp primary e hsupp
    have habs : processSupplementalFile Source.absent o ([] : IssuesMap) = Except.ok [] := rfl
    simp only [process, processIssues, hsupp, habs]
  · intro supp primary
    have hshape : (process supp primary o).toOption.isSome ↔
        (readHeader (primary.headD "")).toOption.isSome := by
      cases hs : processSupplementalFile supp o [] with
      | ok m1 =>
        cases hr : readHeader (primary.headD "") with
        | ok h2 =>
          simp only [process, processIssues, processFile, hs, hr]
          simp [Except.toOption]
        | error e =>
          simp only [process, processIssues, processFile, hs, hr]
          simp [Except.toOption]
      | error e1 =>
        cases hr : readHeader (primary.headD "") with
        | ok h2 =>
          simp only [process, processIssues, processFile, hs, hr]
          simp [Except.toOption]
        | error e =>
          simp only [process, processIssues, processFile, hs, hr]
          simp [Except.toOption]
    exact hshape.trans (readHeader_ok_iff (primary.headD ""))
  · intro sh srows ph prows hS hP h1 h2
    simp [processIssues, processSupplementalFile, processFile, h1, h2]

/-- Claim C5 witness: a supplemental open failure leaves the run
identical to a run with no supplemental source. -/
theorem supplemental_failure_nonfatal_witness :
    process Source.openFailed ["Issue key", "A"] defaultOptions
      = process Source.absent ["Issue key", "A"] defaultOptions :=
  (supplemental_failure_nonfatal defaultOptions).1 Source.openFailed
    ["Issue key", "A"] "could not open" (by rfl)

/-- Claim C1 counterexample: merge the supplemental source (A blocks B)
then the primary source (A blocks C). A has a data row in both, yet the
final record's blocked list is exactly ["C"]: the supplemental
reference "B" is discarded when A's primary row is read, so the lists
are replaced, not unioned. -/
theorem merge_union_counterexample :
    (processIssues (Source.content ["Issue key,Outward issue link (Blocks)", "A,B"])
        ["Issue key,Outward issue link (Blocks)", "A,C"] defaultOptions).toOption.bind
      (fun m => (mapGet m "A").map IssueInfo.blockedKeys) = some ["C"]
    ∧ ("B" ∈ (["C"] : List String) → False) :=
  ⟨rfl, by decide⟩

/-- Claim C1 (amended): for identifiers present in both sources,
primary data wins by being written last, but wholesale: the final
record equals the record built from the identifier's last visible
primary row alone — its summary, status, and relation cells — and
entries accumulated earlier (from the supplemental source or from
stubs) are discarded, not unioned. -/
theorem primary_row_determines_record (supp : Source) (o : Options)
    (hdr : String) (pre : List String) (ln : String) (post : List String)
    (h : HeaderInfo) (k : String)
    (hh : readHeader hdr = Except.ok h)
    (hw : rowWritesKey h o ln = some k)
    (hpost : ∀ l ∈ post, rowWritesKey h o l ≠ some k) :
    (processIssues supp (hdr :: (pre ++ ln :: post)) o).toOption.bind (fun m => mapGet m k)
      = some (rowRecord h o (splitRow ln) k) := by
  simp only [processIssues]
  cases hs : processSupplementalFile supp o [] with
  | ok m1 =>
    simp only [hs, processFile, List.headD_cons, List.tail_cons, hh]
    simp [Except.toOption, readIssues_last_write h o pre ln post m1 k hw hpost]
  | error e1 =>
    simp only [hs, processFile, List.headD_cons, List.tail_cons, hh]
    simp [Except.toOption, readIssues_last_write h o pre ln post [] k hw hpost]

/-- Claim C1 witness at the counterexample input: the final record for
A is exactly the one built from the primary row `A,C`. -/
theorem primary_row_determines_record_witness :
    (processIssues (Source.content ["Issue key,Outward issue link (Blocks)", "A,B"])
        ["Issue key,Outward issue link (Blocks)", "A,C"] defaultOptions).toOption.bind
      (fun m => mapGet m "A")
      = some { issueKey := "A", summary := "", status := "",
               blockedKeys := ["C"], blockerKeys := [] } := by
  have h1 := primary_row_determines_record
    (Source.content ["Issue key,Outward issue link (Blocks)", "A,B"]) defaultOptions
    "Issue key,Outward issue link (Blocks)" [] "A,C" [] ⟨0, -1, -1, [1], []⟩ "A"
    (by rfl) (by rfl) (by intro l hl; cases hl)
  simp only [List.nil_append] at h1
  rw [show rowRecord ⟨0, -1, -1, [1], []⟩ defaultOptions (splitRow "A,C") "A"
      = { issueKey := "A", summary := "", status := "",
          blockedKeys := ["C"], blockerKeys := [] } from by decide] at h1
  exact h1

/-- Claim C2 counterexample: on the spec's example input, TKT-2's final
record (written by its own row, which replaced the stub holding the
back-reference) has empty relationship lists, so under the default
options its object block is empty — no object block for TKT2, in any
map-iteration order. -/
theorem example_tkt2_object_counterexample :
    (processIssues Source.absent
        ["Issue key,Status,Inward issue link (Blocks),Outward issue link (Blocks)",
         "TKT-1,Open,,TKT-2", "TKT-2,Done,,"] defaultOptions).toOption.bind
      (fun m => (mapGet m "TKT-2").map (fun r => objectBlock r defaultOptions)) = some []
    ∧ ((process Source.absent
        ["Issue key,Status,Inward issue link (Blocks),Outward issue link (Blocks)",
         "TKT-1,Open,,TKT-2", "TKT-2,Done,,"] defaultOptions).toOption.getD
          []).contains "  DONE" = false :=
  ⟨rfl, rfl⟩

/-- Claim C2 (amended): the example input produces (in the canonical
insertion-order iteration) an object for TKT1 with status OPEN and the
relationship line `TKT1 <|-- TKT2`, but no object block for TKT2: its
own row overwrote the stub, leaving an orphan record that the default
hideOrphans=true suppresses, so TKT2's DONE status never appears. -/
theorem example_output_exact :
    process Source.absent
        ["Issue key,Status,Inward issue link (Blocks),Outward issue link (Blocks)",
         "TKT-1,Open,,TKT-2", "TKT-2,Done,,"] defaultOptions
      = Except.ok ["@startuml", "skinparam wrapWidth 150", "object TKT1  \x7b",
          "  OPEN", "\x7d", "TKT1 <|-- TKT2", "@enduml"] :=
  rfl

/-- Claim C3 counterexample: rows `A,X` and `B,X` both reference X,
which never has its own row; X's stub holds only the back-reference to
A (the first referencing row), not to B. -/
theorem stub_crossrefs_counterexample :
    (processIssues Source.absent
        ["Issue key,Outward issue link (Blocks)", "A,X", "B,X"] defaultOptions).toOption.bind
      (fun m => mapGet m "X")
      = some { issueKey := "X", summary := "", status := "",
               blockedKeys := [], blockerKeys := ["A"] }
    ∧ ("B" ∈ (["A"] : List String) → False) :=
  ⟨rfl, by decide⟩

/-- Claim C3 (amended): a referenced-only identifier gets exactly one
stub record with no summary and absent status, whose relationship lists
hold exactly the back-reference installed by the first row that
referenced it (a blocker-column reference installs a blocked back-link,
a blocked-column reference a blocker back-link); any later row that
does not write the identifier's own record leaves the stub unchanged. -/
theorem stub_first_reference_only (h : HeaderInfo) (o : Options) :
    (∀ (m : IssuesMap) (line : String) (k x : String),
       mapGet m x = none → rowWritesKey h o line = some k → k ≠ x →
       x ∈ refCells o (splitRow line) h.blockerIdx →
       mapGet (processLine h o m line) x = some ⟨x, "", "", [k], []⟩)
    ∧ (∀ (m : IssuesMap) (line : String) (k x : String),
       mapGet m x = none → rowWritesKey h o line = some k → k ≠ x →
       x ∉ refCells o (splitRow line) h.blockerIdx →
       x ∈ refCells o (splitRow line) h.blockedIdx →
       mapGet (processLine h o m line) x = some ⟨x, "", "", [], [k]⟩)
    ∧ (∀ (m : IssuesMap) (lines : List String) (x : String) (r : IssueInfo),
       mapGet m x = some r → (∀ l ∈ lines, rowWritesKey h o l ≠ some x) →
       mapGet (readIssues lines h o m) x = some r) := by
  refine ⟨?_, ?_, ?_⟩
  · intro m line k x hx hw hkx hmem
    exact processLine_stub_blocker h o m line k x hx hw hkx hmem
  · intro m line k x hx hw hkx hnb hmem
    exact processLine_stub_blocked h o m line k x hx hw hkx hnb hmem
  · intro m lines x r hx hall
    exact readIssues_preserve h o lines m x r hx hall

/-- Claim C3 witness: processing `A,X` over the empty map creates
the stub for X with exactly the blocker back-reference to A. -/
theorem stub_first_reference_only_witness :
    mapGet (processLine ⟨0, -1, -1, [1], []⟩ defaultOptions [] "A,X") "X"
      = some ⟨"X", "", "", [], ["A"]⟩ :=
  (stub_first_reference_only ⟨0, -1, -1, [1], []⟩ defaultOptions).2.1 [] "A,X" "A" "X"
    (by rfl) (by rfl) (by decide) (by decide) (by decide)

/-- Claim C4: the relationship loop of `writeOutput` has no visibility
filter: for every record in the rendered collection (in particular
every record not globally hidden) and every entry of its blocked list,
the line `<normalized key> <|-- <normalized blocked key>` appears in
the output; and a record with empty relationship lists under
hideOrphans, outside the show-set, contributes nothing to the object
section — yet the relationship line naming it is still emitted by the
referencing record. -/
theorem relationship_lines_always_emitted (o : Options) (records : List IssueInfo)
    (r : IssueInfo) (b : String)
    (_hhide : r.issueKey ∉ o.hideKeys) (hr : r ∈ records) (hb : b ∈ r.blockedKeys) :
    (normalizeKey r.issueKey ++ " <|-- " ++ normalizeKey b) ∈ writeOutputLines records o
    ∧ (∀ r2 ∈ records, r2.blockedKeys = [] → r2.blockerKeys = [] →
        o.hideOrphans = true → r2.issueKey ∉ o.showKeys → objectBlock r2 o = []) := by
  constructor
  · simp only [writeOutputLines]
    apply List.mem_append.mpr
    left
    apply List.mem_append.mpr
    right
    apply List.mem_flatten.mpr
    refine ⟨relLines r, List.mem_map.mpr ⟨r, hr, rfl⟩, ?_⟩
    simp only [relLines]
    exact List.mem_map.mpr ⟨b, hb, rfl⟩
  · intro r2 _ hbl hbr hho hshow
    have hguard : objectGuard r2 o = false := by
      simp [objectGuard, hbl, hbr, hho, hshow]
    simp [objectBlock, hguard]

/-- Claim C4 witness: the record A-1 (not hidden) with blocked entry
B-2 yields the line `A1 <|-- B2` even though B-2 has no record at all
in the rendered collection. -/
theorem relationship_lines_always_emitted_witness :
    ("A1 <|-- B2" : String) ∈
      writeOutputLines [{ issueKey := "A-1", blockedKeys := ["B-2"] }] defaultOptions :=
  (relationship_lines_always_emitted defaultOptions
    [{ issueKey := "A-1", blockedKeys := ["B-2"] }]
    { issueKey := "A-1", blockedKeys := ["B-2"] } "B-2"
    (by decide) (by decide) (by decide)).1

/-- Claim C6: the merger never indexes past a row's fields: a row too
short to reach the identifier column is skipped wholesale; a summary or
status column at or beyond the row length is treated as absent; and
relation columns at or beyond the row length contribute no reference
and leave the record and the map untouched. -/
theorem short_rows_safe (h : HeaderInfo) (o : Options) (_hk : 0 ≤ h.issueKeyIdx) :
    (∀ (m : IssuesMap) (line : String),
       ¬(((splitRow line).length : Int) > h.issueKeyIdx) → processLine h o m line = m)
    ∧ (∀ (columns : List String) (k : String),
       ¬((columns.length : Int) > h.summaryIdx) → (rowRecord h o columns k).summary = "")
    ∧ (∀ (columns : List String) (k : String),
       ¬((columns.length : Int) > h.statusIdx) → (rowRecord h o columns k).status = "")
    ∧ (∀ (columns : List String) (idxs : List Nat),
       (∀ idx ∈ idxs, ¬(idx < columns.length)) → refCells o columns idxs = [])
    ∧ (∀ (columns : List String) (issue : IssueInfo) (m : IssuesMap) (idxs : List Nat),
       (∀ idx ∈ idxs, ¬(idx < columns.length)) →
       idxs.foldl (loadBlockersStep columns o) (issue, m) = (issue, m))
    ∧ (∀ (columns : List String) (issue : IssueInfo) (m : IssuesMap) (idxs : List Nat),
       (∀ idx ∈ idxs, ¬(idx < columns.length)) →
       idxs.foldl (loadBlockedStep columns o) (issue, m) = (issue, m)) := by
  refine ⟨?_, ?_, ?_, ?_, ?_, ?_⟩
  · intro m line hlen
    simp [processLine, hlen]
  · intro columns k hs
    simp only [rowRecord]
    rw [if_neg (fun hand => hs hand.2)]
  · intro columns k hs
    simp only [rowRecord]
    rw [if_neg (fun hand => hs hand.2)]
  · intro columns idxs
    induction idxs with
    | nil => intro _; rfl
    | cons idx rest ih =>
      intro hall
      simp [refCells, hall idx (List.mem_cons_self idx rest),
        ih (fun i hi => hall i (List.mem_cons_of_mem idx hi))]
  · intro columns issue m idxs
    induction idxs with
    | nil => intro _; rfl
    | cons idx rest ih =>
      intro hall
      rw [List.foldl_cons,
        show loadBlockersStep columns o (issue, m) idx = (issue, m) from by
          simp [loadBlockersStep, hall idx (List.mem_cons_self idx rest)]]
      exact ih (fun i hi => hall i (List.mem_cons_of_mem idx hi))
  · intro columns issue m idxs
    induction idxs with
    | nil => intro _; rfl
    | cons idx rest ih =>
      intro hall
      rw [List.foldl_cons,
        show loadBlockedStep columns o (issue, m) idx = (issue, m) from by
          simp [loadBlockedStep, hall idx (List.mem_cons_self idx rest)]]
      exact ih (fun i hi => hall i (List.mem_cons_of_mem idx hi))

/-- Claim C6 witness: a two-field row is skipped when the identifier
column is index 5. -/
theorem short_rows_safe_witness :
    processLine ⟨5, -1, -1, [], []⟩ defaultOptions [] "a,b" = [] :=
  (short_rows_safe ⟨5, -1, -1, [], []⟩ defaultOptions (by decide)).1 [] "a,b" (by decide)

/-- Claim C7: a row whose identifier is both in the hide-set and the
show-set is not skipped: `readIssues` takes the same `rowUpdate` path,
with the same resulting record, as it does for an identifier that is
not hidden at all (the show-set overrides the hide-set for the row's
own identifier). -/
theorem show_overrides_hide (h : HeaderInfo) (o : Options) (m : IssuesMap) (line : String)
    (k : String) (hkey : rowKeyCell h line = some k)
    (_hhide : k ∈ o.hideKeys) (hshow : k ∈ o.showKeys) :
    processLine h o m line = rowUpdate h o m (splitRow line) k
    ∧ mapGet (processLine h o m line) k = some (rowRecord h o (splitRow line) k)
    ∧ (∀ (o2 : Options) (m2 : IssuesMap), rowKeyCell h line = some k → k ∉ o2.hideKeys →
        processLine h o2 m2 line = rowUpdate h o2 m2 (splitRow line) k) := by
  have hw : rowWritesKey h o line = some k := by
    simp [rowWritesKey, hkey, hshow]
  refine ⟨?_, ?_, ?_⟩
  · rw [processLine_eq, hw]
  · exact processLine_writes h o m line k hw
  · intro o2 m2 hkey2 hh2
    have hw2 : rowWritesKey h o2 line = some k := by
      simp [rowWritesKey, hkey2, hh2]
    rw [processLine_eq, hw2]

/-- Claim C7 witness: with A both hidden and shown, the row `A` is
processed through `rowUpdate` exactly as in the visible path. -/
theorem show_overrides_hide_witness :
    processLine ⟨0, -1, -1, [], []⟩
        { defaultOptions with hideKeys := ["A"], showKeys := ["A"] } [] "A"
      = rowUpdate ⟨0, -1, -1, [], []⟩
        { defaultOptions with hideKeys := ["A"], showKeys := ["A"] } [] (splitRow "A") "A" :=
  (show_overrides_hide ⟨0, -1, -1, [], []⟩
    { defaultOptions with hideKeys := ["A"], showKeys := ["A"] } [] "A" "A"
    (by rfl) (by decide) (by decide)).1

/-- Claim C8: a data row whose identifier cell is blank (empty after
trimming) leaves the merged map completely unchanged: no record is
created or overwritten and no relationship list is mutated. -/
theorem blank_identifier_noop (h : HeaderInfo) (o : Options) (m : IssuesMap) (line : String)
    (_hk : 0 ≤ h.issueKeyIdx)
    (hlen : ((splitRow line).length : Int) > h.issueKeyIdx)
    (hblank : trimString (cellAt (splitRow line) h.issueKeyIdx) = "") :
    processLine h o m line = m := by
  simp [processLine, hlen, hblank]

/-- Claim C8 witness: the row `  ,B` (blank identifier cell) is a
no-op on the empty map even though it carries a relation cell. -/
theorem blank_identifier_noop_witness :
    processLine ⟨0, -1, -1, [1], []⟩ defaultOptions [] "  ,B" = [] :=
  blank_identifier_noop ⟨0, -1, -1, [1], []⟩ defaultOptions [] "  ,B"
    (by decide) (by decide) (by decide)

/-- Claim C9: hyphen stripping happens only in the renderer: every key
of the merged map and every identifier stored in a record's
relationship lists comes verbatim from the input — the trimmed
identifier cell of a written row or a raw relation cell — or was
already present in the initial map; `normalizeKey` never enters the
merger. -/
theorem identifiers_stored_raw (h : HeaderInfo) (o : Options) (m : IssuesMap)
    (lines : List String) :
    mapKeys (readIssues lines h o m) ⊆
      mapKeys m ++ (lines.map (rawRowStrings h o)).flatten
    ∧ storedRefs (readIssues lines h o m) ⊆
      storedRefs m ++ (lines.map (rawRowStrings h o)).flatten := by
  constructor
  · intro a ha
    rcases readIssues_keys h o lines m a ha with h1 | h1
    · exact List.mem_append.mpr (Or.inl h1)
    · exact List.mem_append.mpr (Or.inr h1)
  · intro a ha
    rcases readIssues_refs h o lines m a ha with h1 | h1
    · exact List.mem_append.mpr (Or.inl h1)
    · exact List.mem_append.mpr (Or.inr h1)

end JiraD
